import Mathlib

/-!
Verification of the xic lexer (`src/compiler/parser.rs`, `src/syntax/token.rs`).

The lexer is embedded shallowly: the character cursor becomes a `List Char`
together with a `Position`, bundled in `LexerState`; the Rust iterator method
`Lexer::next` becomes the function `next` below.  Machine integers are
modelled as `Nat`/`Int` with explicit range checks where the Rust standard
library enforces them, and `f64` values are modelled as exact rationals
(the numeric scanner only ever produces sign/digit/dot buffers, on which
Rust float parsing is exact decimal reading followed by rounding, so the
rational model distinguishes exactly the values the code distinguishes).

The `unreachable!` branch of `Lexer::next_numeric` is modelled by `none`
in an outer `Option` layer: `none` means the program panics, `some r`
means it returns `r`.
-/

namespace Xic

/-- Source position (`diagnostics::Position`): row and column counters. -/
structure Position where
  row : Nat
  column : Nat
  deriving DecidableEq

set_option maxHeartbeats 1600000 in
/-- The token classification (`TokenType` in `src/syntax/token.rs`).
`Type'` renders the source constructor `Type`, which is a reserved word
in Lean.  Payloads: `u64` as `Nat`, `i64` as `Int`, `f64` as an exact
rational, Rust `String` as `List Char`. -/
inductive TokenType where
  | None
  | Identifier (name : List Char)
  | Bits (value : Nat)
  | Integer (value : Int)
  | Decimal (value : ℚ)
  | Boolean (value : Bool)
  | String (value : List Char)
  | Character (value : Char)
  | BitsLiteral
  | IntegerLiteral
  | DecimalLiteral
  | Module
  | Trait
  | Type'
  | Extend
  | Function
  | Value
  | Use
  | Return
  | True
  | False
  | Bit
  | Bit8
  | Bit16
  | Bit32
  | Bit64
  | Int
  | Int8
  | Int16
  | Int32
  | Int64
  | Float
  | Float8
  | Float16
  | Float32
  | Float64
  | Bool
  | Char
  | Char8
  | Char16
  | Char32
  | Apostrophe
  | QutationMark
  | FullStop
  | Comma
  | Colon
  | Semicolon
  | EqualsSign
  | PlusSign
  | MinuxSign
  | Asterisk
  | Solidus
  | ReverseSolidus
  | VerticalLine
  | ExclamationMark
  | QuestionMark
  | ComercialAt
  | NumberSign
  | RightwardsArrow
  | LeftCurlyBracket
  | RightCurlyBracket
  | LeftParenthesis
  | RightParenthesis
  | LeftAngleBracket
  | RightAngleBracket
  | LeftSquareBracket
  | RightSquareBracket

/-- A classified, position-tagged token (`Token` in `src/syntax/token.rs`).
The field `type` renders the source field `r#type`. -/
structure Token where
  type : TokenType
  position : Position

/-- The lexer error taxonomy (`LexingError` in `src/compiler/parser.rs`). -/
inductive LexingError where
  | MultipleDecimalPoints
  | DecimalParsing
  | BitsParsing
  | IntegerParsing
  | UnknownToken
  | End
  | InvalidEscapeSequence
  | IncompleteCharacter
  | IncompleteString
  deriving DecidableEq

/-- The lexer state (`Lexer` in `src/compiler/parser.rs`): the remaining
character cursor and the current position. -/
structure LexerState where
  input : List Char
  pos : Position
  deriving DecidableEq

/-- The keyword table (`KEYWORDS` in `src/compiler/parser.rs`), a fixed
compile-time association from spelling to token classification. -/
def KEYWORDS : List (List Char × TokenType) := [
  ("module".toList, .Module),
  ("trait".toList, .Trait),
  ("type".toList, .Type'),
  ("extend".toList, .Extend),
  ("function".toList, .Function),
  ("value".toList, .Value),
  ("use".toList, .Use),
  ("return".toList, .Return),
  ("true".toList, .True),
  ("false".toList, .False),
  ("bit".toList, .Bit),
  ("bit8".toList, .Bit8),
  ("bit16".toList, .Bit16),
  ("bit32".toList, .Bit32),
  ("bit64".toList, .Bit64),
  ("int".toList, .Int),
  ("int8".toList, .Int8),
  ("int16".toList, .Int16),
  ("int32".toList, .Int32),
  ("int64".toList, .Int64),
  ("float".toList, .Float),
  ("float8".toList, .Float8),
  ("float16".toList, .Float16),
  ("float32".toList, .Float32),
  ("float64".toList, .Float64),
  ("bool".toList, .Bool),
  ("char".toList, .Char),
  ("char8".toList, .Char8),
  ("char16".toList, .Char16),
  ("char32".toList, .Char32)]

/-- Rust `char::is_numeric`, restricted to the ASCII range (the Unicode
numeric classes outside ASCII play no role in the verified claims). -/
def isNumeric (c : Char) : Bool := Nat.ble 48 c.toNat && Nat.ble c.toNat 57

/-- Rust `char::is_alphabetic`, restricted to the ASCII range. -/
def isAlphabetic (c : Char) : Bool :=
  (Nat.ble 65 c.toNat && Nat.ble c.toNat 90) || (Nat.ble 97 c.toNat && Nat.ble c.toNat 122)

/-- Rust `char::is_whitespace`, restricted to the ASCII range
(tab, line feed, vertical tab, form feed, carriage return, space). -/
def isWhitespace (c : Char) : Bool :=
  (Nat.ble 9 c.toNat && Nat.ble c.toNat 13) || c.toNat == 32

/-- Position update of `Lexer::increment`: on a line break the column is
reset to 0 and the row incremented; then the column is incremented. -/
def advance (p : Position) (c : Char) : Position :=
  let p' := if c = '\n' then { row := p.row + 1, column := 0 } else p
  { row := p'.row, column := p'.column + 1 }

/-- `Lexer::increment`: consume one character, updating the position. -/
def increment (st : LexerState) : Option Char × LexerState :=
  match st.input with
  | [] => (none, st)
  | c :: rest => (some c, ⟨rest, advance st.pos c⟩)

/-- `Lexer::next_character`: the escape-aware character read shared by the
character-literal and string-literal sub-protocols.  Returns whether the
character was escaped together with the character. -/
def nextCharacter (st : LexerState) : Except LexingError (Bool × Char) × LexerState :=
  match increment st with
  | (none, st') => (.error .End, st')
  | (some c, st') =>
    if c ≠ '\\' then (.ok (false, c), st')
    else
      match increment st' with
      | (none, st'') => (.error .End, st'')
      | (some c₂, st'') =>
        if c₂ = '\\' ∨ c₂ = '\'' ∨ c₂ = '\"' then (.ok (true, c₂), st'')
        else (.error .InvalidEscapeSequence, st'')

/-- The comparison `r#type == TokenType::DecimalLiteral` of
`Lexer::next_numeric`, as a direct discriminant test. -/
def isDecimalKind : TokenType → Bool
  | .DecimalLiteral => true
  | _ => false

/-- The scanning loop of `Lexer::next_numeric`: push `current`, then keep
consuming while the next character is a digit or a first `.` (which
switches the provisional kind to `DecimalLiteral`); a second `.` fails
with `MultipleDecimalPoints`. -/
def numericLoop : List Char → Position → Char → TokenType → List Char →
    Except LexingError (List Char × TokenType) × LexerState
  | [], pos, current, t, buffer => (.ok (buffer ++ [current], t), ⟨[], pos⟩)
  | c :: rest, pos, current, t, buffer =>
    if c = '.' then
      if isDecimalKind t then
        (.error .MultipleDecimalPoints, ⟨rest, advance pos c⟩)
      else
        numericLoop rest (advance pos c) c .DecimalLiteral (buffer ++ [current])
    else if isNumeric c then
      numericLoop rest (advance pos c) c t (buffer ++ [current])
    else
      (.ok (buffer ++ [current], t), ⟨rest, advance pos c⟩)

/-- Digit value of an ASCII digit character. -/
def digitVal (c : Char) : Nat := c.toNat - 48

/-- Value of a run of ASCII digits, most significant first. -/
def decimalValue (ds : List Char) : Nat := ds.foldl (fun a c => a * 10 + digitVal c) 0

/-- Modelled from Rust std: `str::parse::<u64>` — an optional `+` sign
followed by a nonempty ASCII digit run whose value fits in 64 bits. -/
def parseU64 (s : List Char) : Option Nat :=
  let digits := match s with
    | '+' :: rest => rest
    | _ => s
  if digits ≠ [] ∧ digits.all isNumeric ∧ decimalValue digits < 2 ^ 64 then
    some (decimalValue digits)
  else none

/-- Modelled from Rust std: `str::parse::<i64>` — an optional sign followed
by a nonempty ASCII digit run whose value fits in a signed 64-bit range. -/
def parseI64 (s : List Char) : Option Int :=
  let signBody : Int × List Char := match s with
    | '+' :: rest => (1, rest)
    | '-' :: rest => (-1, rest)
    | _ => (1, s)
  if signBody.2 ≠ [] ∧ signBody.2.all isNumeric then
    let v : Int := signBody.1 * (decimalValue signBody.2 : Int)
    if -(2 ^ 63) ≤ v ∧ v ≤ 2 ^ 63 - 1 then some v else none
  else none

/-- Modelled from Rust std: `str::parse::<f64>` on the sign/digit/dot
buffers the numeric scanner produces — an optional sign, an integer digit
run, and an optional `.` followed by a fraction digit run, with at least
one digit overall.  The value is the exactly read decimal, as a rational
(the scanner never produces exponent or non-finite spellings, so this is
the exact domain the code exercises). -/
def parseF64 (s : List Char) : Option ℚ :=
  let signBody : ℚ × List Char := match s with
    | '+' :: rest => (1, rest)
    | '-' :: rest => (-1, rest)
    | _ => (1, s)
  let intPart := signBody.2.takeWhile isNumeric
  let rest := signBody.2.dropWhile isNumeric
  match rest with
  | [] => if intPart = [] then none else some (signBody.1 * (decimalValue intPart : ℚ))
  | '.' :: frac =>
    if frac.all isNumeric ∧ (intPart ≠ [] ∨ frac ≠ []) then
      some (signBody.1 *
        ((decimalValue intPart : ℚ) + (decimalValue frac : ℚ) / (10 : ℚ) ^ frac.length))
    else none
  | _ => none

/-- The final-parse `match` of `Lexer::next_numeric`.  The catch-all arm is
the source's `unreachable!`: reaching it is a panic, modelled as `none`. -/
def parseFinalNumeric (buffer : List Char) (t : TokenType) :
    Option (Except LexingError TokenType) :=
  match t with
  | .DecimalLiteral =>
    match parseF64 buffer with
    | none => some (.error .DecimalParsing)
    | some v => some (.ok (.Decimal v))
  | .BitsLiteral =>
    match parseU64 buffer with
    | none => some (.error .BitsParsing)
    | some v => some (.ok (.Bits v))
  | .IntegerLiteral =>
    match parseI64 buffer with
    | none => some (.error .IntegerParsing)
    | some v => some (.ok (.Integer v))
  | _ => none

/-- `Lexer::next_numeric`: scan a numeric run, then parse the buffer
according to the final provisional kind.  `none` models the panic of the
`unreachable!` branch. -/
def nextNumeric (st : LexerState) (current : Char) (t : TokenType) :
    Option (Except LexingError TokenType) × LexerState :=
  match numericLoop st.input st.pos current t [] with
  | (.error e, st') => (some (.error e), st')
  | (.ok (buffer, t'), st') => (parseFinalNumeric buffer t', st')

/-- The string-literal loop of the `'"'` arm of `Lexer::next`: read
escape-aware characters into the buffer until an unescaped `"`.  The
internal `End` signal is translated to `IncompleteString` at this call
site, as in the source. -/
def stringLoop (st : LexerState) (buffer : List Char) :
    Except LexingError (List Char) × LexerState :=
  match h : nextCharacter st with
  | (.error e, st') => (.error (if e = .End then .IncompleteString else e), st')
  | (.ok (isEscaped, c), st') =>
    if c = '"' ∧ isEscaped = false then (.ok buffer, st')
    else stringLoop st' (buffer ++ [c])
termination_by st.input.length
decreasing_by
  rcases st with ⟨input, pos⟩
  rcases input with _ | ⟨a, rest⟩
  · simp [nextCharacter, increment] at h
  · by_cases ha : a = '\\'
    · subst ha
      rcases rest with _ | ⟨b, rest'⟩
      · simp [nextCharacter, increment] at h
      · simp only [nextCharacter, increment] at h
        split at h
        · simp_all
        · split at h
          · simp only [Prod.mk.injEq, Except.ok.injEq] at h
            obtain ⟨-, h2⟩ := h
            subst h2
            simp
            omega
          · simp at h
    · simp only [nextCharacter, increment, if_pos ha] at h
      simp only [Prod.mk.injEq, Except.ok.injEq] at h
      obtain ⟨-, h2⟩ := h
      subst h2
      simp

/-- The identifier/keyword loop of the fallback arm of `Lexer::next`:
push `current`, then keep consuming while the next character is
alphabetic, an underscore, or a digit. -/
def identifierLoop : List Char → Position → Char → List Char → List Char × LexerState
  | [], pos, current, buffer => (buffer ++ [current], ⟨[], pos⟩)
  | c :: rest, pos, current, buffer =>
    if !isAlphabetic c && c != '_' && !isNumeric c then
      (buffer ++ [current], ⟨rest, advance pos c⟩)
    else
      identifierLoop rest (advance pos c) c (buffer ++ [current])

/-- The whitespace-skipping loop at the top of `Lexer::next`: consume
characters while the current one is whitespace; report exhaustion. -/
def skipWhitespace (current : Char) (input : List Char) (pos : Position) :
    Option Char × LexerState :=
  if isWhitespace current then
    match input with
    | [] => (none, ⟨[], pos⟩)
    | c :: rest => skipWhitespace c rest (advance pos c)
  else (some current, ⟨input, pos⟩)

/-- The start-position stamp of `Token::new` in `Lexer::next`: the
position of the just-consumed first character of the token, one column
back from the tracked position. -/
def stampPos (st : LexerState) : Position := ⟨st.pos.row, st.pos.column - 1⟩

/-- The character-literal arm of `Lexer::next` (the `\'` match arm):
read one escape-aware character; an unescaped apostrophe closes the
literal as `Character(NUL)`, otherwise the next character must be the
closing apostrophe; the internal `End` signal becomes
`IncompleteCharacter`. -/
def charLitArm (st₂ : LexerState) (sp : Position) :
    Option (Option (Except LexingError Token)) × LexerState :=
  match nextCharacter st₂ with
  | (.ok (isEscaped, ok), st₃) =>
    if ok = '\'' ∧ isEscaped = false then
      (some (some (.ok ⟨.Character '\x00', sp⟩)), st₃)
    else
      match increment st₃ with
      | (none, st₄) => (some (some (.error .IncompleteCharacter)), st₄)
      | (some c₂, st₄) =>
        if c₂ ≠ '\'' then (some (some (.error .IncompleteCharacter)), st₄)
        else (some (some (.ok ⟨.Character ok, sp⟩)), st₄)
  | (.error e, st₃) =>
    if e ≠ .End then (some (some (.error e)), st₃)
    else (some (some (.error .IncompleteCharacter)), st₃)

/-- The string-literal arm of `Lexer::next` (the `"` match arm): run the
string loop; an empty buffer is replaced by a single NUL character. -/
def stringArm (st₂ : LexerState) (sp : Position) :
    Option (Option (Except LexingError Token)) × LexerState :=
  match stringLoop st₂ [] with
  | (.error e, st₃) => (some (some (.error e)), st₃)
  | (.ok buffer, st₃) =>
    if buffer = [] then (some (some (.ok ⟨.String ['\x00'], sp⟩)), st₃)
    else (some (some (.ok ⟨.String buffer, sp⟩)), st₃)

/-- A numeric-literal arm of `Lexer::next`: run `Lexer::next_numeric`
and wrap its outcome, propagating a panic of the `unreachable!` branch. -/
def numericArm (st₂ : LexerState) (current : Char) (t : TokenType) (sp : Position) :
    Option (Option (Except LexingError Token)) × LexerState :=
  match nextNumeric st₂ current t with
  | (none, st₃) => (none, st₃)
  | (some (.error e), st₃) => (some (some (.error e)), st₃)
  | (some (.ok tt), st₃) => (some (some (.ok ⟨tt, sp⟩)), st₃)

/-- The `+` arm of `Lexer::next`: peek the next character without
consuming it; a digit starts a signed numeric scan, anything else (or
end-of-input) yields the plus-sign marker. -/
def plusArm (st₂ : LexerState) (sp : Position) :
    Option (Option (Except LexingError Token)) × LexerState :=
  match st₂.input with
  | [] => (some (some (.ok ⟨.PlusSign, sp⟩)), st₂)
  | n :: _ =>
    if isNumeric n then numericArm st₂ '+' .IntegerLiteral sp
    else (some (some (.ok ⟨.PlusSign, sp⟩)), st₂)

/-- The `-` arm of `Lexer::next`: peek the next character; `>` is
consumed to yield `RightwardsArrow`, a digit starts a signed numeric
scan, anything else (or end-of-input) yields the minus-sign marker. -/
def minusArm (st₂ : LexerState) (sp : Position) :
    Option (Option (Except LexingError Token)) × LexerState :=
  match st₂.input with
  | [] => (some (some (.ok ⟨.MinuxSign, sp⟩)), st₂)
  | n :: _ =>
    if n = '>' then
      (some (some (.ok ⟨.RightwardsArrow, sp⟩)), (increment st₂).2)
    else if isNumeric n then numericArm st₂ '-' .IntegerLiteral sp
    else (some (some (.ok ⟨.MinuxSign, sp⟩)), st₂)

/-- The identifier/keyword arm of `Lexer::next`: run the identifier
loop, then look the buffer up in the keyword table, rewriting the
`True`/`False` markers into `Boolean` values. -/
def identifierArm (st₂ : LexerState) (current : Char) (sp : Position) :
    Option (Option (Except LexingError Token)) × LexerState :=
  match identifierLoop st₂.input st₂.pos current [] with
  | (buffer, st₃) =>
    match KEYWORDS.lookup buffer with
    | some .True => (some (some (.ok ⟨.Boolean true, sp⟩)), st₃)
    | some .False => (some (some (.ok ⟨.Boolean false, sp⟩)), st₃)
    | some k => (some (some (.ok ⟨k, sp⟩)), st₃)
    | none => (some (some (.ok ⟨.Identifier buffer, sp⟩)), st₃)

/-- One pull of the lexer (`<Lexer as Iterator>::next`).  The outer
`Option` models panics: `none` is a panic, `some none` is the end of the
sequence, `some (some r)` is a yielded `Result`. -/
def next (st : LexerState) : Option (Option (Except LexingError Token)) × LexerState :=
  match increment st with
  | (none, st₁) => (some none, st₁)
  | (some c₀, st₁) =>
    match skipWhitespace c₀ st₁.input st₁.pos with
    | (none, st₂) => (some none, st₂)
    | (some current, st₂) =>
      if current = '\'' then charLitArm st₂ (stampPos st₂)
      else if current = '"' then stringArm st₂ (stampPos st₂)
      else if current = '.' then (some (some (.ok ⟨.FullStop, stampPos st₂⟩)), st₂)
      else if current = ',' then (some (some (.ok ⟨.Comma, stampPos st₂⟩)), st₂)
      else if current = ':' then (some (some (.ok ⟨.Colon, stampPos st₂⟩)), st₂)
      else if current = ';' then (some (some (.ok ⟨.Semicolon, stampPos st₂⟩)), st₂)
      else if current = '=' then (some (some (.ok ⟨.EqualsSign, stampPos st₂⟩)), st₂)
      else if current = '+' then plusArm st₂ (stampPos st₂)
      else if current = '-' then minusArm st₂ (stampPos st₂)
      else if current = '*' then (some (some (.ok ⟨.Asterisk, stampPos st₂⟩)), st₂)
      else if current = '/' then (some (some (.ok ⟨.Solidus, stampPos st₂⟩)), st₂)
      else if current = '\\' then (some (some (.ok ⟨.ReverseSolidus, stampPos st₂⟩)), st₂)
      else if current = '|' then (some (some (.ok ⟨.VerticalLine, stampPos st₂⟩)), st₂)
      else if current = '!' then (some (some (.ok ⟨.ExclamationMark, stampPos st₂⟩)), st₂)
      else if current = '?' then (some (some (.ok ⟨.QuestionMark, stampPos st₂⟩)), st₂)
      else if current = '@' then (some (some (.ok ⟨.ComercialAt, stampPos st₂⟩)), st₂)
      else if current = '#' then (some (some (.ok ⟨.NumberSign, stampPos st₂⟩)), st₂)
      else if current = '{' then (some (some (.ok ⟨.LeftCurlyBracket, stampPos st₂⟩)), st₂)
      else if current = '}' then (some (some (.ok ⟨.RightCurlyBracket, stampPos st₂⟩)), st₂)
      else if current = '(' then (some (some (.ok ⟨.LeftParenthesis, stampPos st₂⟩)), st₂)
      else if current = ')' then (some (some (.ok ⟨.RightParenthesis, stampPos st₂⟩)), st₂)
      else if current = '<' then (some (some (.ok ⟨.LeftAngleBracket, stampPos st₂⟩)), st₂)
      else if current = '>' then (some (some (.ok ⟨.RightAngleBracket, stampPos st₂⟩)), st₂)
      else if current = '[' then (some (some (.ok ⟨.LeftSquareBracket, stampPos st₂⟩)), st₂)
      else if current = ']' then (some (some (.ok ⟨.RightSquareBracket, stampPos st₂⟩)), st₂)
      else if isNumeric current then numericArm st₂ current .BitsLiteral (stampPos st₂)
      else if isAlphabetic current then identifierArm st₂ current (stampPos st₂)
      else (some (some (.error .UnknownToken)), st₂)

/-- Driver loop over `next`, as the spec's control flow prescribes: pull
until end-of-input or the first error (every error is terminal for the
caller).  A panic inside a pull is recorded as a `none` element.  The
fuel argument bounds the number of pulls. -/
def lexAll : Nat → LexerState → List (Option (Except LexingError Token))
  | 0, _ => []
  | fuel + 1, st =>
    match next st with
    | (some (some (.ok t)), st') => some (.ok t) :: lexAll fuel st'
    | (some (some (.error e)), _) => [some (.error e)]
    | (some none, _) => []
    | (none, _) => [none]

/-- Lex a complete input from the initial position `(1, 1)`. -/
def lex (s : List Char) : List (Option (Except LexingError Token)) :=
  lexAll (s.length + 1) ⟨s, ⟨1, 1⟩⟩

/-- Recogniser for the internal end-of-input signal appearing in a pull
result; used to state that `End` never escapes to the caller. -/
def isEndErr : Option (Option (Except LexingError Token)) → Bool
  | some (some (.error .End)) => true
  | _ => false

/-- The determiner, actional and valuable word markers of the token
taxonomy (`Module` through `Return` in `src/syntax/token.rs`). -/
def isWordKeyword : TokenType → Bool
  | .Module | .Trait | .Type' | .Extend | .Function | .Value | .Use | .Return => true
  | _ => false

/-- The boolean word markers (`True`, `False`). -/
def isBooleanKeyword : TokenType → Bool
  | .True | .False => true
  | _ => false

/-- The primitive-type markers (`Bit` through `Char32`). -/
def isTypeKeyword : TokenType → Bool
  | .Bit | .Bit8 | .Bit16 | .Bit32 | .Bit64
  | .Int | .Int8 | .Int16 | .Int32 | .Int64
  | .Float | .Float8 | .Float16 | .Float32 | .Float64
  | .Bool
  | .Char | .Char8 | .Char16 | .Char32 => true
  | _ => false

/-- Holds when a scan result's provisional kind is either the given
starting kind or `DecimalLiteral`; errors count trivially. -/
def KindPreserved (t : TokenType) : Except LexingError (List Char × TokenType) → Prop
  | .ok (_, t') => t' = t ∨ t' = .DecimalLiteral
  | .error _ => True

/-- Holds of a pull result that neither panics nor carries the internal
`End` signal. -/
def pullOk (r : Option (Option (Except LexingError Token))) : Bool :=
  r.isSome && !isEndErr r

/-- Claim C1. The spec says the character that stops a numeric or
identifier scan is not consumed and becomes the first character of the
next pull.  The code instead consumes and discards it: lexing `21;`
yields only `Bits(21)` — the semicolon is swallowed and the next pull
hits end-of-input, so no `Semicolon` token is ever produced. -/
theorem C1_stop_char_swallowed :
    lex "21;".toList = [some (.ok ⟨.Bits 21, ⟨1, 1⟩⟩)] := rfl

/-- Counterexample to claim C2 as stated: the keyword table does not
have 29 entries. -/
theorem C2_not_29_entries : (KEYWORDS.length == 29) = false := rfl

/-- Claim C2 (amended): the keyword table is a fixed compile-time list of
exactly 30 entries with pairwise distinct spellings — 8 determiner,
actional and valuable words, 2 boolean words, and 20 primitive-type
words. -/
theorem C2_keyword_table_amended :
    KEYWORDS.length = 30 ∧
    (KEYWORDS.filter (fun e => isWordKeyword e.2)).length = 8 ∧
    (KEYWORDS.filter (fun e => isBooleanKeyword e.2)).length = 2 ∧
    (KEYWORDS.filter (fun e => isTypeKeyword e.2)).length = 20 ∧
    (KEYWORDS.map Prod.fst).Nodup := by
  refine ⟨rfl, rfl, rfl, rfl, ?_⟩
  decide

/-- Claim C3: an unsigned digit run lexes to `Bits`, a sign-prefixed run
to `Integer` (with the sign applied), and a run with one decimal point
to `Decimal` — `21`, `+21`, `-21`, `21.21`. -/
theorem C3_numeric_examples :
    lex "21".toList = [some (.ok ⟨.Bits 21, ⟨1, 1⟩⟩)] ∧
    lex "+21".toList = [some (.ok ⟨.Integer 21, ⟨1, 1⟩⟩)] ∧
    lex "-21".toList = [some (.ok ⟨.Integer (-21), ⟨1, 1⟩⟩)] ∧
    lex "21.21".toList = [some (.ok ⟨.Decimal (2121 / 100), ⟨1, 1⟩⟩)] := by
  refine ⟨rfl, rfl, rfl, ?_⟩
  have key : (1 : ℚ) * (((21 : ℕ) : ℚ) + ((21 : ℕ) : ℚ) / (10 : ℚ) ^ (2 : ℕ))
      = 2121 / 100 := by
    push_cast
    norm_num
  calc lex "21.21".toList
      = [some (.ok ⟨.Decimal ((1 : ℚ) *
          (((21 : ℕ) : ℚ) + ((21 : ℕ) : ℚ) / (10 : ℚ) ^ (2 : ℕ))), ⟨1, 1⟩⟩)] := rfl
    _ = [some (.ok ⟨.Decimal (2121 / 100), ⟨1, 1⟩⟩)] := by rw [key]

/-- Claim C9: a string literal whose sub-protocol terminates with an
empty buffer is emitted as a `String` holding exactly one NUL character,
whatever follows the literal and wherever it starts. -/
theorem C9_empty_string_nul (pos : Position) (rest : List Char) :
    (next ⟨'"' :: '"' :: rest, pos⟩).1
      = some (some (.ok ⟨.String ['\x00'], ⟨pos.row, pos.column⟩⟩)) ∧
    ((next ⟨'"' :: '"' :: rest, pos⟩).2).input = rest := by
  constructor <;>
    simp [next, stringArm, stringLoop, nextCharacter, increment, advance, skipWhitespace, isWhitespace, stampPos]

/-- Claim C4: after the opening apostrophe, an unescaped apostrophe read
first closes the literal at once with `Character(NUL)` and consumes
nothing further; otherwise the read character (raw or escaped) is the
value and the very next character must be the closing apostrophe, any
other character or end-of-input failing with `IncompleteCharacter`. -/
theorem C4_character_literal_protocol :
    (∀ pos r, (next ⟨'\'' :: '\'' :: r, pos⟩).1
        = some (some (.ok ⟨.Character '\x00', ⟨pos.row, pos.column⟩⟩)) ∧
      ((next ⟨'\'' :: '\'' :: r, pos⟩).2).input = r) ∧
    (∀ pos c r, c ≠ '\'' → c ≠ '\\' →
      (next ⟨'\'' :: c :: '\'' :: r, pos⟩).1
        = some (some (.ok ⟨.Character c, ⟨pos.row, pos.column⟩⟩))) ∧
    (∀ pos c d r, c ≠ '\'' → c ≠ '\\' → d ≠ '\'' →
      (next ⟨'\'' :: c :: d :: r, pos⟩).1 = some (some (.error .IncompleteCharacter))) ∧
    (∀ pos c, c ≠ '\'' → c ≠ '\\' →
      (next ⟨['\'', c], pos⟩).1 = some (some (.error .IncompleteCharacter))) ∧
    (∀ pos, (next ⟨['\''], pos⟩).1 = some (some (.error .IncompleteCharacter))) ∧
    (∀ pos e r, (e = '\\' ∨ e = '\'' ∨ e = '\"') →
      (next ⟨'\'' :: '\\' :: e :: '\'' :: r, pos⟩).1
        = some (some (.ok ⟨.Character e, ⟨pos.row, pos.column⟩⟩))) ∧
    (∀ pos e d r, (e = '\\' ∨ e = '\'' ∨ e = '\"') → d ≠ '\'' →
      (next ⟨'\'' :: '\\' :: e :: d :: r, pos⟩).1
        = some (some (.error .IncompleteCharacter))) ∧
    (∀ pos e, (e = '\\' ∨ e = '\'' ∨ e = '\"') →
      (next ⟨['\'', '\\', e], pos⟩).1 = some (some (.error .IncompleteCharacter))) ∧
    (∀ pos, (next ⟨['\'', '\\'], pos⟩).1 = some (some (.error .IncompleteCharacter))) := by
  refine ⟨?_, ?_, ?_, ?_, ?_, ?_, ?_, ?_, ?_⟩
  · intro pos r
    constructor <;>
      simp [next, charLitArm, nextCharacter, increment, advance, skipWhitespace, isWhitespace, stampPos]
  · intro pos c r hc hb
    simp [next, charLitArm, nextCharacter, increment, advance, skipWhitespace, isWhitespace, stampPos, hc, hb]
  · intro pos c d r hc hb hd
    simp [next, charLitArm, nextCharacter, increment, advance, skipWhitespace, isWhitespace, stampPos, hc, hb, hd]
  · intro pos c hc hb
    simp [next, charLitArm, nextCharacter, increment, advance, skipWhitespace, isWhitespace, stampPos, hc, hb]
  · intro pos
    simp [next, charLitArm, nextCharacter, increment, advance, skipWhitespace, isWhitespace, stampPos]
  · intro pos e r he
    rcases he with he | he | he <;> subst he <;>
      simp [next, charLitArm, nextCharacter, increment, advance, skipWhitespace, isWhitespace, stampPos]
  · intro pos e d r he hd
    simp [next, charLitArm, nextCharacter, increment, advance, skipWhitespace, isWhitespace, stampPos, he, hd]
  · intro pos e he
    simp [next, charLitArm, nextCharacter, increment, advance, skipWhitespace, isWhitespace, stampPos, he]
  · intro pos
    simp [next, charLitArm, nextCharacter, increment, advance, skipWhitespace, isWhitespace, stampPos]

/-- Closed witness for claim C4's theorem: the pull on `'a'` yields
`Character('a')`. -/
theorem C4_character_literal_protocol_witness :
    (next ⟨'\'' :: 'a' :: '\'' :: [], ⟨1, 1⟩⟩).1
      = some (some (.ok ⟨.Character 'a', ⟨1, 1⟩⟩)) :=
  C4_character_literal_protocol.2.1 ⟨1, 1⟩ 'a' [] (by decide) (by decide)

/-- Skipping a run of whitespace characters ends at the first
non-whitespace character, with exactly the run consumed. -/
theorem skipWhitespace_run (ws : List Char) :
    ∀ c₀ pos rest d, isWhitespace c₀ = true → (∀ x ∈ ws, isWhitespace x = true) →
      isWhitespace d = false →
      ∃ p, skipWhitespace c₀ (ws ++ d :: rest) pos = (some d, ⟨rest, p⟩) := by
  induction ws with
  | nil =>
    intro c₀ pos rest d h₀ _ hd
    refine ⟨advance pos d, ?_⟩
    rw [skipWhitespace.eq_def, if_pos h₀]
    simp only [List.nil_append]
    show skipWhitespace d rest (advance pos d) = _
    rw [skipWhitespace.eq_def, hd]
    simp
  | cons c ws ih =>
    intro c₀ pos rest d h₀ hws hd
    obtain ⟨p, hp⟩ := ih c (advance pos c) rest d (hws c (by simp)) (fun x hx => hws x (by simp [hx])) hd
    refine ⟨p, ?_⟩
    rw [skipWhitespace.eq_def, if_pos h₀]
    show skipWhitespace c (ws ++ d :: rest) (advance pos c) = _
    exact hp

/-- Claim C10: a pull whose first non-whitespace character is an
underscore fails with `UnknownToken` (an underscore cannot start an
identifier), although an underscore does continue an identifier. -/
theorem C10_underscore_unknown_token :
    (∀ ws rest pos, (∀ c ∈ ws, isWhitespace c = true) →
      (next ⟨ws ++ '_' :: rest, pos⟩).1 = some (some (.error .UnknownToken))) ∧
    lex "a_b".toList = [some (.ok ⟨.Identifier ['a', '_', 'b'], ⟨1, 1⟩⟩)] := by
  constructor
  · intro ws rest pos hws
    rcases ws with _ | ⟨c, ws⟩
    · simp [next, increment, advance, skipWhitespace.eq_def, isWhitespace, isNumeric,
        isAlphabetic, stampPos]
    · obtain ⟨p, hp⟩ := skipWhitespace_run ws c (advance pos c) rest '_'
        (hws c (by simp)) (fun x hx => hws x (by simp [hx])) (by decide)

      simp [next, increment, hp, isNumeric, isAlphabetic, stampPos]
  · rfl

/-- Closed witness for claim C10's theorem: a single space followed by
an underscore fails with `UnknownToken`. -/
theorem C10_underscore_unknown_token_witness :
    (next ⟨[' ', '_'], ⟨1, 1⟩⟩).1 = some (some (.error .UnknownToken)) :=
  C10_underscore_unknown_token.1 [' '] [] ⟨1, 1⟩ (by decide)

/-- A provisional kind other than `DecimalLiteral` fails the decimal
discriminant test. -/
theorem isDecimalKind_false (t : TokenType) (h : t ≠ .DecimalLiteral) :
    isDecimalKind t = false := by
  cases t <;> first | rfl | exact absurd rfl h

/-- Scanning a digit run and then a first decimal point continues the
scan with the provisional kind switched to `DecimalLiteral` and the
digits (and the dot's predecessor) accumulated. -/
theorem numericLoop_first_dot (ds : List Char) :
    ∀ pos c t buf rest, (∀ x ∈ ds, isNumeric x = true) → t ≠ .DecimalLiteral →
      ∃ p, numericLoop (ds ++ '.' :: rest) pos c t buf
        = numericLoop rest p '.' .DecimalLiteral (buf ++ c :: ds) := by
  induction ds with
  | nil =>
    intro pos c t buf rest _ ht
    refine ⟨advance pos '.', ?_⟩
    rw [List.nil_append, numericLoop, if_pos rfl, isDecimalKind_false t ht,
      if_neg Bool.false_ne_true]
  | cons a ds ih =>
    intro pos c t buf rest hds ht
    have ha : isNumeric a = true := hds a (by simp)
    have ha' : a ≠ '.' := by
      intro h
      subst h
      simp [isNumeric] at ha
    obtain ⟨p, hp⟩ := ih (advance pos a) a t (buf ++ [c]) rest
      (fun x hx => hds x (by simp [hx])) ht
    refine ⟨p, ?_⟩
    rw [List.cons_append, numericLoop, if_neg ha', if_pos ha, hp]
    simp

/-- Scanning a digit run in `DecimalLiteral` kind and then meeting a
second decimal point fails with `MultipleDecimalPoints`. -/
theorem numericLoop_second_dot (ds : List Char) :
    ∀ pos c buf rest, (∀ x ∈ ds, isNumeric x = true) →
      (numericLoop (ds ++ '.' :: rest) pos c .DecimalLiteral buf).1
        = .error .MultipleDecimalPoints := by
  induction ds with
  | nil =>
    intro pos c buf rest _
    rw [List.nil_append, numericLoop, if_pos rfl,
      if_pos (show isDecimalKind TokenType.DecimalLiteral = true from rfl)]
  | cons a ds ih =>
    intro pos c buf rest hds
    have ha : isNumeric a = true := hds a (by simp)
    have ha' : a ≠ '.' := by
      intro h
      subst h
      simp [isNumeric] at ha
    rw [List.cons_append, numericLoop, if_neg ha', if_pos ha]
    exact ih (advance pos a) a (buf ++ [c]) rest (fun x hx => hds x (by simp [hx]))

/-- Claim C5: in a numeric scan the first decimal point switches the
provisional kind to `DecimalLiteral`, and a second decimal point met
once the kind is `DecimalLiteral` aborts the pull with
`MultipleDecimalPoints` and produces no token — in particular `21.2.1`
fails that way. -/
theorem C5_multiple_decimal_points :
    (∀ ds ds' rest pos c t buf,
      (∀ x ∈ ds, isNumeric x = true) → (∀ x ∈ ds', isNumeric x = true) →
      t ≠ .DecimalLiteral →
      (∃ p, numericLoop (ds ++ '.' :: rest) pos c t buf
          = numericLoop rest p '.' .DecimalLiteral (buf ++ c :: ds)) ∧
      (numericLoop (ds ++ '.' :: (ds' ++ '.' :: rest)) pos c t buf).1
        = .error .MultipleDecimalPoints) ∧
    lex "21.2.1".toList = [some (.error .MultipleDecimalPoints)] := by
  constructor
  · intro ds ds' rest pos c t buf hds hds' ht
    refine ⟨numericLoop_first_dot ds pos c t buf rest hds ht, ?_⟩
    obtain ⟨p, hp⟩ := numericLoop_first_dot ds pos c t buf (ds' ++ '.' :: rest) hds ht
    rw [hp]
    exact numericLoop_second_dot ds' p '.' (buf ++ c :: ds) rest hds'
  · rfl

/-- Closed witness for claim C5's theorem: scanning the rest of `21.2.1`
from the leading digit aborts with `MultipleDecimalPoints`. -/
theorem C5_multiple_decimal_points_witness :
    (numericLoop (['1'] ++ '.' :: (['2'] ++ '.' :: ['1'])) ⟨1, 2⟩ '2' .BitsLiteral []).1
      = .error .MultipleDecimalPoints :=
  (C5_multiple_decimal_points.1 ['1'] ['2'] ['1'] ⟨1, 2⟩ '2' .BitsLiteral []
    (by decide) (by decide) (fun h => TokenType.noConfusion h)).2

/-- Consuming an all-`'a'` run followed by a line break accumulates the
run and leaves the position at column 1 of the next row. -/
theorem identifierLoop_alpha_run (n : Nat) :
    ∀ pos cur buf rest, identifierLoop (List.replicate n 'a' ++ '\n' :: rest) pos cur buf
      = (buf ++ cur :: List.replicate n 'a', ⟨rest, ⟨pos.row + 1, 1⟩⟩) := by
  induction n with
  | zero =>
    intro pos cur buf rest
    rw [List.replicate_zero, List.nil_append, identifierLoop, if_pos (by decide)]
    simp [advance]
  | succ n ih =>
    intro pos cur buf rest
    rw [List.replicate_succ, List.cons_append, identifierLoop, if_neg (by decide), ih]
    simp [advance]

/-- No keyword spelling starts with the letter `a`, so an all-`'a'` word
is looked up as no keyword. -/
theorem lookup_a_run (l : List Char) : KEYWORDS.lookup ('a' :: l) = none := by
  simp [KEYWORDS, List.lookup]

/-- A pull on an all-`'a'` line followed by a line break yields the run
as one identifier stamped at the pull's start position, and leaves the
lexer at column 1 of the next row. -/
theorem next_a_run (n : Nat) (rest : List Char) (pos : Position) :
    next ⟨List.replicate (n + 1) 'a' ++ '\n' :: rest, pos⟩
      = (some (some (.ok ⟨.Identifier (List.replicate (n + 1) 'a'),
          ⟨pos.row, pos.column⟩⟩)), ⟨rest, ⟨pos.row + 1, 1⟩⟩) := by
  rw [List.replicate_succ, List.cons_append]
  simp only [next, increment]
  rw [skipWhitespace.eq_def]
  simp +decide [advance, isWhitespace, stampPos, identifierArm]
  rw [identifierLoop_alpha_run]
  simp +decide [lookup_a_run, List.replicate_succ]

/-- Claim C6: in a two-line input, the token starting at the first
character of line one is stamped row 1, column 1, and the token starting
at the first character of line two is stamped row 2, column 1, whatever
the length of line one. -/
theorem C6_two_line_positions (n : Nat) :
    (next ⟨List.replicate (n + 1) 'a' ++ '\n' :: ['b'], ⟨1, 1⟩⟩).1
      = some (some (.ok ⟨.Identifier (List.replicate (n + 1) 'a'), ⟨1, 1⟩⟩)) ∧
    (next ((next ⟨List.replicate (n + 1) 'a' ++ '\n' :: ['b'], ⟨1, 1⟩⟩).2)).1
      = some (some (.ok ⟨.Identifier ['b'], ⟨2, 1⟩⟩)) := by
  rw [next_a_run n ['b'] ⟨1, 1⟩]
  exact ⟨rfl, rfl⟩

/-- The numeric scanning loop fails only with `MultipleDecimalPoints`. -/
theorem numericLoop_error_mdp (input : List Char) :
    ∀ pos cur t buf e st', numericLoop input pos cur t buf = (.error e, st') →
      e = .MultipleDecimalPoints := by
  induction input with
  | nil =>
    intro pos cur t buf e st' h
    rw [numericLoop] at h
    simp at h
  | cons c rest ih =>
    intro pos cur t buf e st' h
    rw [numericLoop] at h
    by_cases hc : c = '.'
    · rw [if_pos hc] at h
      by_cases ht : isDecimalKind t = true
      · rw [if_pos ht] at h
        simp only [Prod.mk.injEq, Except.error.injEq] at h
        exact h.1.symm
      · rw [if_neg ht] at h
        exact ih _ _ _ _ _ _ h
    · rw [if_neg hc] at h
      by_cases hn : isNumeric c = true
      · rw [if_pos hn] at h
        exact ih _ _ _ _ _ _ h
      · rw [if_neg hn] at h
        simp at h

/-- The numeric scanning loop either keeps the starting provisional kind
or switches it to `DecimalLiteral`, never to anything else. -/
theorem numericLoop_kind (input : List Char) :
    ∀ pos cur t buf, KindPreserved t (numericLoop input pos cur t buf).1 := by
  induction input with
  | nil =>
    intro pos cur t buf
    rw [numericLoop]
    exact Or.inl rfl
  | cons c rest ih =>
    intro pos cur t buf
    rw [numericLoop]
    by_cases hc : c = '.'
    · rw [if_pos hc]
      by_cases ht : isDecimalKind t = true
      · rw [if_pos ht]
        trivial
      · rw [if_neg ht]
        have h := ih (advance pos c) c .DecimalLiteral (buf ++ [cur])
        revert h
        cases hr : (numericLoop rest (advance pos c) c .DecimalLiteral (buf ++ [cur])).1 with
        | error e =>
          intro
          trivial
        | ok p =>
          rcases p with ⟨b, t'⟩
          intro h
          rcases h with h | h
          · exact Or.inr h
          · exact Or.inr h
    · rw [if_neg hc]
      by_cases hn : isNumeric c = true
      · rw [if_pos hn]
        exact ih _ _ _ _
      · rw [if_neg hn]
        exact Or.inl rfl

/-- The final numeric parse returns a value (never the panic marker) for
each of the three literal kinds. -/
theorem parseFinalNumeric_isSome (buffer : List Char) (t : TokenType)
    (h : t = .BitsLiteral ∨ t = .IntegerLiteral ∨ t = .DecimalLiteral) :
    (parseFinalNumeric buffer t).isSome = true := by
  rcases h with h | h | h <;> subst h
  · cases hp : parseU64 buffer <;> simp [parseFinalNumeric, hp]
  · cases hp : parseI64 buffer <;> simp [parseFinalNumeric, hp]
  · cases hp : parseF64 buffer <;> simp [parseFinalNumeric, hp]

/-- The final numeric parse fails only with one of the three parsing
errors. -/
theorem parseFinalNumeric_err (buffer : List Char) (t : TokenType) (e : LexingError)
    (h : parseFinalNumeric buffer t = some (.error e)) :
    e = .DecimalParsing ∨ e = .BitsParsing ∨ e = .IntegerParsing := by
  cases t <;> simp only [parseFinalNumeric] at h <;> try simp at h
  · rcases hp : parseU64 buffer with _ | v <;> rw [hp] at h <;> simp at h
    exact Or.inr (Or.inl h.symm)
  · rcases hp : parseI64 buffer with _ | v <;> rw [hp] at h <;> simp at h
    exact Or.inr (Or.inr h.symm)
  · rcases hp : parseF64 buffer with _ | v <;> rw [hp] at h <;> simp at h
    exact Or.inl h.symm

/-- A numeric pull started from the `BitsLiteral` or `IntegerLiteral`
kind returns a value (never panicking) and never fails with the internal
`End` signal. -/
theorem nextNumeric_good (st : LexerState) (cur : Char) (t : TokenType)
    (ht : t = .BitsLiteral ∨ t = .IntegerLiteral) :
    ((nextNumeric st cur t).1.isSome = true) ∧
      ∀ e, (nextNumeric st cur t).1 = some (.error e) → e ≠ .End := by
  unfold nextNumeric
  rcases hr : numericLoop st.input st.pos cur t [] with ⟨r, st'⟩
  cases r with
  | error e =>
    have he := numericLoop_error_mdp st.input st.pos cur t [] e st' hr
    subst he
    refine ⟨by simp, ?_⟩
    intro e' he'
    simp at he'
    subst he'
    decide
  | ok p =>
    rcases p with ⟨buf, t'⟩
    have hk0 := numericLoop_kind st.input st.pos cur t []
    rw [hr] at hk0
    have hk : t' = t ∨ t' = .DecimalLiteral := hk0
    have ht' : t' = .BitsLiteral ∨ t' = .IntegerLiteral ∨ t' = .DecimalLiteral := by
      rcases hk with hk | hk
      · subst hk
        rcases ht with ht | ht <;> subst ht <;> simp
      · subst hk
        simp
    refine ⟨parseFinalNumeric_isSome buf t' ht', ?_⟩
    intro e he
    have := parseFinalNumeric_err buf t' e he
    rcases this with h | h | h <;> subst h <;> decide

/-- A successful escape-aware read consumes at least one character. -/
theorem nextCharacter_ok_lt (st : LexerState) (p : Bool × Char) (st' : LexerState)
    (h : nextCharacter st = (.ok p, st')) : st'.input.length < st.input.length := by
  rcases st with ⟨input, pos⟩
  rcases input with _ | ⟨a, rest⟩
  · simp [nextCharacter, increment] at h
  · by_cases ha : a = '\\'
    · subst ha
      rcases rest with _ | ⟨b, rest'⟩
      · simp [nextCharacter, increment] at h
      · simp only [nextCharacter, increment] at h
        split at h
        · simp_all
        · split at h
          · simp only [Prod.mk.injEq, Except.ok.injEq] at h
            obtain ⟨-, h2⟩ := h
            subst h2
            simp
            omega
          · simp at h
    · simp only [nextCharacter, increment, if_pos ha] at h
      simp only [Prod.mk.injEq, Except.ok.injEq] at h
      obtain ⟨-, h2⟩ := h
      subst h2
      simp

/-- An error result of a pull that is not the internal `End` signal is
not recognised by `isEndErr`. -/
theorem isEndErr_error (e : LexingError) (he : e ≠ .End) :
    isEndErr (some (some (.error e))) = false := by
  cases e <;> first | rfl | exact absurd rfl he

/-- The string-literal loop never returns the internal `End` signal: it
is translated to `IncompleteString` at the call site inside the loop. -/
theorem stringLoop_not_end :
    ∀ (n : Nat) (st : LexerState) (buf : List Char) (e : LexingError) (st' : LexerState),
      st.input.length = n → stringLoop st buf = (.error e, st') → e ≠ .End := by
  intro n
  induction n using Nat.strong_induction_on with
  | _ n ih =>
    intro st buf e st' hlen h
    rw [stringLoop.eq_def] at h
    split at h
    · rename_i e₀ st₀ heq
      simp only [Prod.mk.injEq, Except.error.injEq] at h
      obtain ⟨h1, -⟩ := h
      subst h1
      by_cases he₀ : e₀ = .End
      · rw [if_pos he₀]
        decide
      · rw [if_neg he₀]
        exact he₀
    · rename_i isEsc c st₀ heq
      split at h
      · simp at h
      · exact ih st₀.input.length (hlen ▸ nextCharacter_ok_lt st (isEsc, c) st₀ heq)
          st₀ (buf ++ [c]) e st' rfl h

theorem pullOk_eos : pullOk (some none) = true := rfl

theorem pullOk_yield_ok (t : Token) : pullOk (some (some (.ok t))) = true := rfl

theorem pullOk_yield_err (e : LexingError) (he : e ≠ .End) :
    pullOk (some (some (.error e))) = true := by
  simp [pullOk, isEndErr_error e he]

theorem charLitArm_pullOk (st₂ : LexerState) (sp : Position) :
    pullOk (charLitArm st₂ sp).1 = true := by
  unfold charLitArm
  repeat' split
  all_goals first
    | exact pullOk_yield_ok _
    | exact pullOk_yield_err _ (by decide)
    | exact pullOk_yield_err _ (by assumption)

theorem stringArm_pullOk (st₂ : LexerState) (sp : Position) :
    pullOk (stringArm st₂ sp).1 = true := by
  unfold stringArm
  split
  · rename_i hsl
    exact pullOk_yield_err _ (stringLoop_not_end _ _ _ _ _ rfl hsl)
  · split
    · exact pullOk_yield_ok _
    · exact pullOk_yield_ok _

theorem numericArm_pullOk (st₂ : LexerState) (cur : Char) (t : TokenType) (sp : Position)
    (ht : t = .BitsLiteral ∨ t = .IntegerLiteral) :
    pullOk (numericArm st₂ cur t sp).1 = true := by
  unfold numericArm
  split
  · rename_i st₃ hnn
    exact absurd (nextNumeric_good st₂ cur t ht).1 (by rw [hnn]; simp)
  · rename_i e st₃ hne
    exact pullOk_yield_err _ ((nextNumeric_good st₂ cur t ht).2 e (by rw [hne]))
  · exact pullOk_yield_ok _

theorem identifierArm_pullOk (st₂ : LexerState) (cur : Char) (sp : Position) :
    pullOk (identifierArm st₂ cur sp).1 = true := by
  unfold identifierArm
  repeat' split
  all_goals exact pullOk_yield_ok _

theorem pullOk_ite (c : Prop) [Decidable c]
    (a b : Option (Option (Except LexingError Token)) × LexerState)
    (ha : pullOk a.1 = true) (hb : pullOk b.1 = true) :
    pullOk (if c then a else b).1 = true := by
  split
  · exact ha
  · exact hb

theorem plusArm_pullOk (st₂ : LexerState) (sp : Position) :
    pullOk (plusArm st₂ sp).1 = true := by
  unfold plusArm
  split
  · exact pullOk_yield_ok _
  · split
    · exact numericArm_pullOk _ _ _ _ (Or.inr rfl)
    · exact pullOk_yield_ok _

theorem minusArm_pullOk (st₂ : LexerState) (sp : Position) :
    pullOk (minusArm st₂ sp).1 = true := by
  unfold minusArm
  split
  · exact pullOk_yield_ok _
  · split
    · exact pullOk_yield_ok _
    · split
      · exact numericArm_pullOk _ _ _ _ (Or.inr rfl)
      · exact pullOk_yield_ok _

theorem next_pullOk (st : LexerState) : pullOk (next st).1 = true := by
  unfold next
  split
  · exact pullOk_eos
  · split
    · exact pullOk_eos
    · refine pullOk_ite _ _ _ (charLitArm_pullOk _ _) ?_
      refine pullOk_ite _ _ _ (stringArm_pullOk _ _) ?_
      refine pullOk_ite _ _ _ (pullOk_yield_ok _) ?_
      refine pullOk_ite _ _ _ (pullOk_yield_ok _) ?_
      refine pullOk_ite _ _ _ (pullOk_yield_ok _) ?_
      refine pullOk_ite _ _ _ (pullOk_yield_ok _) ?_
      refine pullOk_ite _ _ _ (pullOk_yield_ok _) ?_
      refine pullOk_ite _ _ _ (plusArm_pullOk _ _) ?_
      refine pullOk_ite _ _ _ (minusArm_pullOk _ _) ?_
      refine pullOk_ite _ _ _ (pullOk_yield_ok _) ?_
      refine pullOk_ite _ _ _ (pullOk_yield_ok _) ?_
      refine pullOk_ite _ _ _ (pullOk_yield_ok _) ?_
      refine pullOk_ite _ _ _ (pullOk_yield_ok _) ?_
      refine pullOk_ite _ _ _ (pullOk_yield_ok _) ?_
      refine pullOk_ite _ _ _ (pullOk_yield_ok _) ?_
      refine pullOk_ite _ _ _ (pullOk_yield_ok _) ?_
      refine pullOk_ite _ _ _ (pullOk_yield_ok _) ?_
      refine pullOk_ite _ _ _ (pullOk_yield_ok _) ?_
      refine pullOk_ite _ _ _ (pullOk_yield_ok _) ?_
      refine pullOk_ite _ _ _ (pullOk_yield_ok _) ?_
      refine pullOk_ite _ _ _ (pullOk_yield_ok _) ?_
      refine pullOk_ite _ _ _ (pullOk_yield_ok _) ?_
      refine pullOk_ite _ _ _ (pullOk_yield_ok _) ?_
      refine pullOk_ite _ _ _ (pullOk_yield_ok _) ?_
      refine pullOk_ite _ _ _ (pullOk_yield_ok _) ?_
      refine pullOk_ite _ _ _ (numericArm_pullOk _ _ _ _ (Or.inl rfl)) ?_
      refine pullOk_ite _ _ _ (identifierArm_pullOk _ _ _) ?_
      exact pullOk_yield_err _ (by decide)

/-- Claim C7: no pull ever yields the internal `End` error to the
caller: end-of-input inside the escape-aware read is translated to
`IncompleteCharacter` by the character-literal arm and to
`IncompleteString` by the string-literal arm, as on the unterminated
inputs `"abc` and `'a`. -/
theorem C7_end_never_surfaces :
    (∀ st, isEndErr (next st).1 = false) ∧
    lex "\"abc".toList = [some (.error .IncompleteString)] ∧
    lex "'a".toList = [some (.error .IncompleteCharacter)] := by
  refine ⟨fun st => ?_, ?_, ?_⟩
  · have h := next_pullOk st
    simp [pullOk] at h
    exact h.2
  · simp +decide [lex, lexAll, next, stringArm, stringLoop.eq_def, nextCharacter, increment,
      advance, skipWhitespace.eq_def, isWhitespace, stampPos]
  · rfl

/-- Claim C8: the `unreachable!` branch of the final numeric parse is
never hit: no pull panics, a numeric scan started from `BitsLiteral` or
`IntegerLiteral` (the only kinds the pull function passes) always
returns, and the scanning loop only ever keeps the starting kind or
switches it to `DecimalLiteral`. -/
theorem C8_unreachable_never_hit :
    (∀ st, (next st).1.isSome = true) ∧
    (∀ st cur, ((nextNumeric st cur .BitsLiteral).1).isSome = true) ∧
    (∀ st cur, ((nextNumeric st cur .IntegerLiteral).1).isSome = true) ∧
    (∀ input pos cur t buf, KindPreserved t (numericLoop input pos cur t buf).1) := by
  refine ⟨fun st => ?_, fun st cur => (nextNumeric_good st cur _ (Or.inl rfl)).1,
    fun st cur => (nextNumeric_good st cur _ (Or.inr rfl)).1,
    fun input pos cur t buf => numericLoop_kind input pos cur t buf⟩
  have h := next_pullOk st
  simp [pullOk] at h
  exact h.1

end Xic


